import Mathlib

/-!
Verification of the slackclipper core (src/slackclipper.py) against its
natural-language specification.  Python strings are shallowly embedded as
`List Char`; Python dictionaries become association lists or records of
optional fields; fallible Python code returns `Except`.  External
collaborators (the HTTP transport, the emoji table) are abstracted as
function parameters, as the spec directs.
-/

/-- Model of Python `str.replace(pat, rep)`: scans left to right, replaces
non-overlapping occurrences, and continues scanning after the replacement
(the output is never rescanned).  Only used with non-empty patterns, as in
the source. -/
def pyReplace (pat rep : List Char) : List Char → List Char
  | [] => []
  | c :: cs =>
    if pat ≠ [] ∧ pat.isPrefixOf (c :: cs) then
      rep ++ pyReplace pat rep ((c :: cs).drop pat.length)
    else
      c :: pyReplace pat rep cs
termination_by s => s.length
decreasing_by
  · rename_i h
    have hp : 0 < pat.length := List.length_pos.mpr h.1
    simp only [List.length_drop, List.length_cons]
    omega
  · simp

/-- Model of Python `str.split(sep)` for a single-character separator.
`"".split(sep)` yields `[""]`, matching Python. -/
def pySplit (sep : Char) : List Char → List (List Char)
  | [] => [[]]
  | c :: cs =>
    if c = sep then [] :: pySplit sep cs
    else
      match pySplit sep cs with
      | g :: gs => (c :: g) :: gs
      | [] => [[c]]

/-- Model of Python printf-style formatting `fmt % arg` with a single
string argument: scans `fmt`, substitutes the argument at the first
unconsumed conversion, turns a doubled percent sign into a literal one,
and fails (returns `none`, standing for the TypeError/ValueError the
operator raises) on any other conversion character, on a trailing bare
percent sign, on a second conversion once the argument is consumed, and
when the argument was never consumed.  The `used` flag records whether
the argument has been consumed. -/
def pyFormatAux (arg : List Char) : List Char → Bool → Option (List Char)
  | [], used => if used then some [] else none
  | c :: rest, used =>
    if c = '%' then
      match rest with
      | [] => none
      | d :: rest2 =>
        if d = 's' then
          if used then none
          else (fun r => arg ++ r) <$> pyFormatAux arg rest2 true
        else if d = '%' then
          (fun r => '%' :: r) <$> pyFormatAux arg rest2 used
        else none
    else (fun r => c :: r) <$> pyFormatAux arg rest used

/-- Model of `fmt % arg` for one string argument (see `pyFormatAux`). -/
def pyFormat (fmt arg : List Char) : Option (List Char) :=
  pyFormatAux arg fmt false

/-- Characters allowed in a URL scheme after the first, per
`urllib.parse` (`scheme_chars`): letters, digits, `+`, `-`, `.`. -/
def schemeChar (c : Char) : Bool :=
  c.isAlpha || c.isDigit || c = '+' || c = '-' || c = '.'

/-- Model of the scheme-splitting step of `urllib.parse.urlsplit`: if the
string has a colon at a positive index, its head is a letter and every
character before the colon is a scheme character, the part before the
colon (lower-cased) is the scheme and the rest follows the colon;
otherwise the scheme is empty and the whole string remains. -/
def splitScheme (url : List Char) : List Char × List Char :=
  match List.findIdx? (fun c => c = ':') url with
  | some i =>
    if 0 < i ∧ (url.headD ' ').isAlpha ∧ (url.take i).all schemeChar then
      ((url.take i).map Char.toLower, url.drop (i + 1))
    else ([], url)
  | none => ([], url)

/-- Model of the netloc-splitting step of `urllib.parse.urlsplit`: when the
remainder begins with two slashes, the netloc runs up to the next slash,
question mark or hash character. -/
def splitNetloc (rest : List Char) : List Char × List Char :=
  if rest.take 2 = ['/', '/'] then
    ((rest.drop 2).takeWhile (fun c => ¬ (c = '/' ∨ c = '?' ∨ c = '#')),
     (rest.drop 2).dropWhile (fun c => ¬ (c = '/' ∨ c = '?' ∨ c = '#')))
  else ([], rest)

/-- Model of `urllib.parse.urlparse` restricted to the three components the
source reads (scheme, netloc, path).  Mirrors CPython: ASCII tab, CR and LF
are removed anywhere, leading C0-control-or-space characters are stripped,
the scheme and netloc are split off, and the path ends at the first hash or
question mark (query and fragment are dropped, as the caller ignores them).
Omitted as irrelevant to the inputs considered here: parameter (`;`)
splitting, which cannot affect the paths in scope, and the bracketed-IPv6
netloc check (no input here contains square brackets). -/
def urlparseModel (link : List Char) : List Char × List Char × List Char :=
  let url := ((link.dropWhile (fun c => c ≤ ' ')).filter
      (fun c => ¬ (c = '\t' ∨ c = '\r' ∨ c = '\n')))
  let sr := splitScheme url
  let nr := splitNetloc sr.2
  (sr.1, nr.1, nr.2.takeWhile (fun c => ¬ (c = '#' ∨ c = '?')))

/-- Outcome of `parse_slack_message_link`: a parsed triple, a raised
`ValueError` with its message, a crash of the `%` formatting while
building an error message, or the uncaught IndexError from `ts[0]` on an
empty timestamp segment. -/
inductive ParseOutcome
  | ok (origin chId ts : List Char)
  | err (msg : List Char)
  | fmtCrash
  | indexErr
deriving DecidableEq, Repr

/-- Helper building `ValueError(ERROR_FMT % (reason,))` as the source does:
`ERROR_FMT` is an f-string embedding the link with literal backslash-percent
pairs removed, and `%` formatting is applied to it afterwards. -/
def mkParseErr (linkWithoutPercent reason : List Char) : ParseOutcome :=
  match pyFormat ("Unexpected link format: %s Got: \"".data
      ++ linkWithoutPercent ++ "\"".data) reason with
  | some m => .err m
  | none => .fmtCrash

/-- Model of `parse_slack_message_link` (src/slackclipper.py lines 91-136):
remove literal backslash-percent pairs for the error text, urlparse the
link, split the path on slashes, then validate scheme, the `archives`
segment, the timestamp segment's leading `p`, its numeric tail, its
17-character length, and finally the absence of trailing segments.
Python's `ts[1:].isnumeric()` is modelled for ASCII digits (it is false on
the empty string, as in Python). -/
def parse_slack_message_link (link : List Char) : ParseOutcome :=
  let lwp := pyReplace "\\%".data [] link
  let u := urlparseModel link
  match pySplit '/' (u.2.2.drop 1) with
  | archives :: chId :: ts :: rest =>
    if u.1 = [] then
      mkParseErr lwp "link must include a scheme (eg. \"http\").".data
    else if archives ≠ "archives".data then
      mkParseErr lwp "first part of path must be \"archives\".".data
    else
      match ts with
      | [] => .indexErr
      | t0 :: ttail =>
        if t0 ≠ 'p' then
          mkParseErr lwp "timestamp part of path must start with 'p'.".data
        else if ¬ (ttail ≠ [] ∧ ttail.all Char.isDigit) then
          mkParseErr lwp "timestamp part of path after 'p' must be numeric.".data
        else if ts.length ≠ 1 + 10 + 6 then
          mkParseErr lwp "timestamp must be 16 digits long.".data
        else if rest ≠ [] then
          mkParseErr lwp "timestamp must be last part of path.".data
        else
          .ok (u.1 ++ "://".data ++ u.2.1 ++ "/".data) chId
            (ttail.take 10 ++ ".".data ++ (ttail.drop 10).take 6)
  | _ =>
    mkParseErr lwp "could not be parsed a URL.".data

/-- One value of the credential bundle's tokens mapping: a per-workspace
access token together with the workspace's friendly name. -/
structure TokenEntry where
  token : List Char
  name : List Char
deriving DecidableEq, Repr

/-- The session cookie of the credential bundle. -/
structure Cookie where
  cookieName : List Char
  cookieValue : List Char
deriving DecidableEq, Repr

/-- A credential dictionary as read back from the store.  Each of the two
keys the source consults may be absent, which models a dict missing that
key (`'tokens' in creds` is `tokensKey.isSome`). -/
structure StoredCreds where
  tokensKey : Option (List (List Char × TokenEntry))
  cookieKey : Option Cookie
deriving DecidableEq, Repr

/-- State of the on-disk credential store: either reading or unpickling
fails (file missing, empty, or corrupt), or it yields a dictionary. -/
inductive StoreState
  | unreadable
  | stored (creds : StoredCreds)
deriving DecidableEq, Repr

/-- Model of `get_credentials_from_store`: open and unpickle the store
file; any failure is an exception. -/
def get_credentials_from_store : StoreState → Except Unit StoredCreds
  | .unreadable => .error ()
  | .stored creds => .ok creds

/-- Model of `are_credentials_present` (src/slackclipper.py lines 16-23):
read the store, check both keys are present, and turn every exception into
`false` via the bare `except`.  The model is a total function into `Bool`,
which is the "never raises" part of the contract. -/
def are_credentials_present (st : StoreState) : Bool :=
  match get_credentials_from_store st with
  | .error _ => false
  | .ok creds => creds.tokensKey.isSome && creds.cookieKey.isSome

/-- A raised Python `KeyError` carrying its argument. -/
inductive PyExn
  | keyError (arg : List Char)
deriving DecidableEq, Repr

/-- Model of `get_name_for_workspace` (src/slackclipper.py lines 77-88),
translated exactly as written: after the membership test succeeds, the
source returns `creds['tokens']['name']` — a lookup of the literal key
`"name"` in the tokens mapping (not the matched entry's name field), whose
value, when present, is a whole `TokenEntry`. -/
def get_name_for_workspace (creds : StoredCreds) (url : List Char) :
    Except PyExn TokenEntry :=
  match creds.tokensKey with
  | none => .error (.keyError "tokens".data)
  | some tokens =>
    if (tokens.lookup url).isSome then
      match tokens.lookup "name".data with
      | some v => .ok v
      | none => .error (.keyError "name".data)
    else
      .error (.keyError "No workspace matching that URL.".data)

/-- Abstraction of the `users.info` HTTP call made by
`get_display_name_with_cache`: a function of the global token, the global
cookie and the user id.  The globals are `Option`s because they start as
Python `None`. -/
def DisplayFetch : Type :=
  Option (List Char) → Option (List Char) → List Char → List Char

/-- The process-wide mutable state of the display-name machinery: the two
globals `gToken` and `gCookie`, the `functools.cache` memo table of
`get_display_name_with_cache` (keyed by user id only), and a log of the
network calls actually made (token, cookie, user of each). -/
structure GState where
  gToken : Option (List Char)
  gCookie : Option (List Char)
  cache : List (List Char × List Char)
  calls : List (Option (List Char) × Option (List Char) × List Char)
deriving DecidableEq, Repr

/-- The state at process start: globals `None`, cache empty. -/
def initGState : GState := ⟨none, none, [], []⟩

/-- Model of `get_display_name_with_cache` (src/slackclipper.py lines
228-263): a `functools.cache`-memoized lookup keyed by the user id alone.
On a hit the cached string is returned and nothing else happens; on a miss
the display name is fetched with the CURRENT globals, logged, and cached. -/
def get_display_name_with_cache (fetch : DisplayFetch) (user : List Char)
    (s : GState) : List Char × GState :=
  match s.cache.lookup user with
  | some n => (n, s)
  | none =>
    let n := fetch s.gToken s.gCookie user
    (n, { s with cache := (user, n) :: s.cache,
                 calls := s.calls ++ [(s.gToken, s.gCookie, user)] })

/-- Model of `get_display_name` (src/slackclipper.py lines 211-226): store
the token and cookie into the globals, then delegate to the cached helper. -/
def get_display_name (fetch : DisplayFetch) (token cookie user : List Char)
    (s : GState) : List Char × GState :=
  get_display_name_with_cache fetch user
    { s with gToken := some token, gCookie := some cookie }

/-- A render operation's sequence of display-name resolutions under one
(token, cookie) pair, as performed by the message loop of
`get_thread_content`: resolve each user id in order, threading the state. -/
def resolveAll (fetch : DisplayFetch) (token cookie : List Char) :
    List (List Char) → GState → List (List Char) × GState
  | [], s => ([], s)
  | u :: us, s =>
    let r := get_display_name fetch token cookie u s
    let rs := resolveAll fetch token cookie us r.2
    (r.1 :: rs.1, rs.2)

/-- Number of logged network calls that looked up the given user id. -/
def callsFor (u : List Char) (s : GState) : Nat :=
  (s.calls.filter (fun cl => cl.2.2 = u)).length

/-- The backquote character (code 96) delimiting mrkdwn code spans. -/
def btick : Char := Char.ofNat 96

/-- Model of the bold pass `re.sub(r"`.*?`|\*", asterisk_match_to_bold, text)`
(src/slackclipper.py lines 323-333): scanning left to right, a code span —
a backquote with a matching backquote later on the same line (the lazy dot
does not cross a newline) — is passed through unchanged, a lone asterisk
becomes a double asterisk, everything else is copied. -/
def boldSub : List Char → List Char
  | [] => []
  | c :: cs =>
    if c = btick then
      if btick ∈ cs.takeWhile (fun x => x ≠ '\n') then
        btick :: (cs.takeWhile (fun x => x ≠ btick)) ++ btick ::
          boldSub ((cs.dropWhile (fun x => x ≠ btick)).drop 1)
      else c :: boldSub cs
    else if c = '*' then '*' :: '*' :: boldSub cs
    else c :: boldSub cs
termination_by s => s.length
decreasing_by
  · have h1 := (List.dropWhile_sublist (l := cs) (fun x => x ≠ btick)).length_le
    simp only [List.length_drop, List.length_cons]
    omega
  · simp
  · simp
  · simp

/-- Model of the channel pass `re.sub(r"<#(.*?)>", r"[#\1]", text)`
(src/slackclipper.py line 335): a `<#` with a closing `>` on the same line
is rewritten to a bracketed label containing the lazily-matched group
(everything up to the first `>`); otherwise scanning advances one character. -/
def channelSub : List Char → List Char
  | [] => []
  | [c] => [c]
  | c :: d :: cs =>
    if c = '<' ∧ d = '#' then
      if '>' ∈ cs.takeWhile (fun x => x ≠ '\n') then
        '[' :: '#' :: (cs.takeWhile (fun x => x ≠ '>')) ++ ']' ::
          channelSub ((cs.dropWhile (fun x => x ≠ '>')).drop 1)
      else c :: channelSub (d :: cs)
    else c :: channelSub (d :: cs)
termination_by s => s.length
decreasing_by
  · have h1 := (List.dropWhile_sublist (l := cs) (fun x => x ≠ '>')).length_le
    simp only [List.length_drop, List.length_cons]
    omega
  · simp
  · simp

/-- Model of the mention pass `re.sub(r"<@(.*?)>", mention_match_to_display_name,
text)` (src/slackclipper.py lines 312-321 and 336): for each `<@` with a
closing `>` on the same line, the replacement callback first raises a
RuntimeError if either global is still `None`, and otherwise resolves the
lazily-matched user id through `get_display_name`, threading the cache
state; the match becomes `[@displayName]`. -/
def mentionSub (fetch : DisplayFetch) : List Char → GState →
    Except (List Char) (List Char × GState)
  | [], s => .ok ([], s)
  | [c], s => .ok ([c], s)
  | c :: d :: cs, s =>
    if c = '<' ∧ d = '@' then
      if '>' ∈ cs.takeWhile (fun x => x ≠ '\n') then
        match s.gToken, s.gCookie with
        | some t, some ck =>
          let uid := cs.takeWhile (fun x => x ≠ '>')
          let r := get_display_name fetch t ck uid s
          (fun p : List Char × GState => ('[' :: '@' :: r.1 ++ ']' :: p.1, p.2)) <$>
            mentionSub fetch ((cs.dropWhile (fun x => x ≠ '>')).drop 1) r.2
        | _, _ =>
          .error "get_display_name() called out of order. This is a bug.".data
      else
        (fun p : List Char × GState => (c :: p.1, p.2)) <$> mentionSub fetch (d :: cs) s
    else
      (fun p : List Char × GState => (c :: p.1, p.2)) <$> mentionSub fetch (d :: cs) s
termination_by s => s.length
decreasing_by
  · have h1 := (List.dropWhile_sublist (l := cs) (fun x => x ≠ '>')).length_le
    simp only [List.length_drop, List.length_cons]
    omega
  · simp
  · simp

/-- Model of the link pass `re.sub(r"<(.*?)\|(.*?)>", r"[\2](\1)", text)`
(src/slackclipper.py line 337): a `<` matches when the same line holds a
`|` with a `>` somewhere after it; the first group runs lazily to the first
`|`, the second lazily from there to the first `>`, and the match becomes
`[label](url)` markup. -/
def urlSub : List Char → List Char
  | [] => []
  | c :: cs =>
    if c = '<' then
      if '|' ∈ cs.takeWhile (fun x => x ≠ '\n') ∧
          '>' ∈ (((cs.takeWhile (fun x => x ≠ '\n')).dropWhile
            (fun x => x ≠ '|')).drop 1) then
        let g1 := cs.takeWhile (fun x => x ≠ '|')
        let rest1 := (cs.dropWhile (fun x => x ≠ '|')).drop 1
        '[' :: (rest1.takeWhile (fun x => x ≠ '>')) ++ ']' :: '(' :: g1 ++ ')' ::
          urlSub ((rest1.dropWhile (fun x => x ≠ '>')).drop 1)
      else c :: urlSub cs
    else c :: urlSub cs
termination_by s => s.length
decreasing_by
  · have h1 := (List.dropWhile_sublist (l := cs) (fun x => x ≠ '|')).length_le
    have h2 := (List.dropWhile_sublist
      (l := (cs.dropWhile (fun x => x ≠ '|')).drop 1) (fun x => x ≠ '>')).length_le
    simp only [List.length_drop, List.length_cons] at h1 h2 ⊢
    omega
  · simp
  · simp

/-- Model of the HTML-entity unescaping chain (src/slackclipper.py lines
339-341): three successive `str.replace` passes. -/
def unescapeEntities (t : List Char) : List Char :=
  pyReplace "&gt;".data ">".data
    (pyReplace "&lt;".data "<".data
      (pyReplace "&amp;".data "&".data t))

/-- Model of `slack_text_to_markdown` (src/slackclipper.py lines 291-343):
the bold, channel, mention, link, emoji and entity passes in the source's
order.  The emoji table (`emoji.emojize`) is an external collaborator and
is passed in as a function; the mention pass may raise the RuntimeError of
`mention_match_to_display_name` and threads the display-name cache state. -/
def slack_text_to_markdown (emojize : List Char → List Char)
    (fetch : DisplayFetch) (text : List Char) (s : GState) :
    Except (List Char) (List Char × GState) :=
  match mentionSub fetch (channelSub (boldSub text)) s with
  | .error e => .error e
  | .ok (t3, s') => .ok (unescapeEntities (emojize (urlSub t3)), s')

/-- Characters Python's `str.strip()` removes (ASCII fragment). -/
def isPySpace (c : Char) : Bool :=
  c = ' ' ∨ c = '\t' ∨ c = '\n' ∨ c = '\r' ∨ c = '\x0b' ∨ c = '\x0c'

/-- Digit tail of Python `int(str)` parsing with an accumulator: single
underscores are allowed between digits only. -/
def pyIntDigits : List Char → Nat → Option Nat
  | [], acc => some acc
  | '_' :: c :: rest, acc =>
    if c.isDigit then pyIntDigits rest (acc * 10 + (c.toNat - 48)) else none
  | ['_'], _ => none
  | c :: rest, acc =>
    if c.isDigit then pyIntDigits rest (acc * 10 + (c.toNat - 48)) else none

/-- Unsigned part of Python `int(str)`: at least one leading digit. -/
def pyIntCore : List Char → Option Nat
  | [] => none
  | c :: rest =>
    if c.isDigit then pyIntDigits rest (c.toNat - 48) else none

/-- Model of Python `int(str)` (ASCII scope): surrounding whitespace is
stripped, an optional single sign precedes the digits, and single
underscores may separate digits; anything else raises, modelled as `none`. -/
def pythonInt (s : List Char) : Option Int :=
  match (((s.dropWhile isPySpace).reverse).dropWhile isPySpace).reverse with
  | '+' :: r => Int.ofNat <$> pyIntCore r
  | '-' :: r => (fun n : Nat => -(n : Int)) <$> pyIntCore r
  | r => Int.ofNat <$> pyIntCore r

/-- Two-digit zero padding for date-time fields. -/
def natPad2 (n : Nat) : List Char :=
  if n < 10 then '0' :: (toString n).data else (toString n).data

/-- Civil UTC date-time rendering of a unix time, in the source's
`%Y-%m-%d %H:%M:%S` format (days-to-civil conversion by the standard
era/day-of-era algorithm; `%Y` is unpadded as on glibc). -/
def formatDateTime (t : Int) : List Char :=
  let day : Int := Int.fdiv t 86400
  let sod : Nat := (t - day * 86400).toNat
  let zz : Nat := (day + 719468).toNat
  let era : Nat := zz / 146097
  let doe : Nat := zz % 146097
  let yoe : Nat := (doe - doe / 1460 + doe / 36524 - doe / 146096) / 365
  let doy : Nat := doe - (365 * yoe + yoe / 4 - yoe / 100)
  let mp : Nat := (5 * doy + 2) / 153
  let d : Nat := doy - (153 * mp + 2) / 5 + 1
  let m : Nat := if mp < 10 then mp + 3 else mp - 9
  let y : Nat := (if m ≤ 2 then 1 else 0) + yoe + era * 400
  (toString y).data ++ "-".data ++ natPad2 m ++ "-".data ++ natPad2 d ++
    " ".data ++ natPad2 (sod / 3600) ++ ":".data ++ natPad2 ((sod % 3600) / 60)
    ++ ":".data ++ natPad2 (sod % 60)

/-- Model of `slack_ts_to_datetime_str` (src/slackclipper.py lines 266-289):
take the part of the string before the first dot, parse it as a Python
integer, and render it as a UTC date-time string.  Every failure inside
the try block — a failed `int()` as well as `datetime.fromtimestamp`
rejecting a timestamp outside the supported year range 1..9999, i.e.
outside [-62135596800, 253402300799] — is re-raised as ValueError,
modelled as `.error ()`. -/
def slack_ts_to_datetime_str (ts_str : List Char) : Except Unit (List Char) :=
  match pythonInt (ts_str.takeWhile (fun c => c ≠ '.')) with
  | none => .error ()
  | some t =>
    if t < -62135596800 ∨ 253402300799 < t then .error ()
    else .ok (formatDateTime t)

/-- Helper predicate: `occursIn pat t` holds when `pat` occurs as a
contiguous substring of `t` (used to state when a `str.replace` pass finds
nothing to do). -/
def occursIn (pat : List Char) : List Char → Bool
  | [] => pat.isEmpty
  | c :: cs => pat.isPrefixOf (c :: cs) || occursIn pat cs

/-- Characters allowed in the host component for the well-formed-permalink
claim: anything except the characters that end a netloc, brackets (whose
IPv6 validation the model omits) and the characters urlparse strips. -/
def hostChar (c : Char) : Bool :=
  ¬ (c = '/' ∨ c = '?' ∨ c = '#' ∨ c = '[' ∨ c = ']'
    ∨ c = '\t' ∨ c = '\r' ∨ c = '\n')

/-- Characters allowed in the channel-id path segment for the
well-formed-permalink claim: anything except a path separator, the
query/fragment starters and the characters urlparse strips. -/
def pathChar (c : Char) : Bool :=
  ¬ (c = '/' ∨ c = '?' ∨ c = '#' ∨ c = '\t' ∨ c = '\r' ∨ c = '\n')

/-- Claim C1 (code bug): the spec requires the display-name cache not to be
shared across distinct (token, cookie) pairs, every id looked up under a
second pair triggering a fresh fetch.  The code's `functools.cache` is
keyed by user id alone and lives for the whole process: here a second
render operation under credentials (tokB, ckB) is served the name that was
fetched under (tokA, ckA), and no fetch at all happens under the second
pair (the call log still holds only the first operation's call). -/
theorem claim_C1_codebug :
    (resolveAll (fun t c u => (t.getD []) ++ '/' :: (c.getD []) ++ '/' :: u)
        "tokB".data "ckB".data ["U1".data]
        (resolveAll (fun t c u => (t.getD []) ++ '/' :: (c.getD []) ++ '/' :: u)
          "tokA".data "ckA".data ["U1".data] initGState).2).1
      = ["tokA/ckA/U1".data]
    ∧ (resolveAll (fun t c u => (t.getD []) ++ '/' :: (c.getD []) ++ '/' :: u)
        "tokB".data "ckB".data ["U1".data]
        (resolveAll (fun t c u => (t.getD []) ++ '/' :: (c.getD []) ++ '/' :: u)
          "tokA".data "ckA".data ["U1".data] initGState).2).2.calls
      = [(some "tokA".data, some "ckA".data, "U1".data)] := by
  decide

/-- Claim C2 (code bug): for a bundle whose tokens mapping holds an entry
for the queried origin with friendly name "Work", the exact-match test
succeeds, yet `get_name_for_workspace` does not return "Work": the source's
`creds['tokens']['name']` looks up the literal key "name" in the tokens
mapping and raises `KeyError('name')`, contradicting its own docstring
("returns a string containing the workspace friendly name"). -/
theorem claim_C2_codebug :
    (([("https://a.slack.com/".data, TokenEntry.mk "xoxc-1".data "Work".data)]
        : List (List Char × TokenEntry)).lookup "https://a.slack.com/".data
      = some ⟨"xoxc-1".data, "Work".data⟩)
    ∧ get_name_for_workspace
        ⟨some [("https://a.slack.com/".data, ⟨"xoxc-1".data, "Work".data⟩)],
          some ⟨"d".data, "v".data⟩⟩
        "https://a.slack.com/".data
      = .error (.keyError "name".data) := by
  exact ⟨rfl, rfl⟩

/-- Claim C5 counterexample: the claim requires present() to be true only
when the tokens mapping is non-empty, but the source only tests key
membership: a stored bundle whose tokens mapping is empty still yields
true. -/
theorem claim_C5_counterexample :
    ¬ (∀ st : StoreState, are_credentials_present st = true →
        ∃ creds, st = .stored creds ∧
          ∃ m, creds.tokensKey = some m ∧ m ≠ []) := by
  intro h
  obtain ⟨creds, hc, m, hm, hne⟩ :=
    h (.stored ⟨some [], some ⟨"d".data, "v".data⟩⟩) (by decide)
  injection hc with h2
  rw [← h2] at hm
  simp only [Option.some.injEq] at hm
  exact hne hm.symm

/-- Claim C5 (amended): `are_credentials_present` is a total Boolean
function (the bare `except` makes every read/parse failure `false`, so it
never raises) and it returns true iff the store read succeeds and the
resulting dictionary has both a `tokens` key and a `cookie` key; whether
the tokens mapping is empty is not checked. -/
theorem claim_C5 (st : StoreState) :
    are_credentials_present st = true ↔
      ∃ creds, st = .stored creds ∧
        creds.tokensKey.isSome ∧ creds.cookieKey.isSome := by
  cases st with
  | unreadable =>
    simp [are_credentials_present, get_credentials_from_store]
  | stored creds =>
    simp [are_credentials_present, get_credentials_from_store]

/-- Claim C10 counterexample: the claim says the formatter succeeds for
EVERY input whose portion before the first dot parses as an integer, but
"999999999999" parses as an integer while `datetime.fromtimestamp` rejects
it (year 33658 is out of range), so the call raises ValueError. -/
theorem claim_C10_counterexample :
    pythonInt "999999999999".data = some 999999999999
    ∧ slack_ts_to_datetime_str "999999999999.garbage".data = .error () := by
  exact ⟨rfl, rfl⟩

/-- Claim C10 (amended): `slack_ts_to_datetime_str` succeeds iff the part
of the input before the first dot parses as a Python integer AND the value
lies in the range representable by `datetime` (years 1..9999, i.e.
[-62135596800, 253402300799]); everything after the first dot is ignored. -/
theorem claim_C10 (ts_str : List Char) :
    (∃ out, slack_ts_to_datetime_str ts_str = .ok out) ↔
      ∃ n, pythonInt (ts_str.takeWhile (fun c => c ≠ '.')) = some n ∧
        -62135596800 ≤ n ∧ n ≤ 253402300799 := by
  unfold slack_ts_to_datetime_str
  cases h : pythonInt (ts_str.takeWhile (fun c => c ≠ '.')) with
  | none => simp
  | some t =>
    by_cases hr : t < -62135596800 ∨ 253402300799 < t
    · simp only [if_pos hr]
      constructor
      · rintro ⟨out, hout⟩; cases hout
      · rintro ⟨n, hn, h1, h2⟩
        rw [Option.some.injEq] at hn
        subst hn
        omega
    · simp only [if_neg hr]
      constructor
      · intro _
        exact ⟨t, rfl, by omega, by omega⟩
      · intro _
        exact ⟨formatDateTime t, rfl⟩


/-- Helper: on a cache hit, `get_display_name` only refreshes the globals
and returns the cached string. -/
theorem gdn_hit (fetch : DisplayFetch) (token cookie u : List Char) (s : GState)
    (n : List Char) (hc : s.cache.lookup u = some n) :
    get_display_name fetch token cookie u s
      = (n, { s with gToken := some token, gCookie := some cookie }) := by
  unfold get_display_name get_display_name_with_cache
  simp [hc]

/-- Helper: on a cache miss, `get_display_name` fetches with the
just-stored credentials, logs the call and caches the result. -/
theorem gdn_miss (fetch : DisplayFetch) (token cookie u : List Char) (s : GState)
    (hc : s.cache.lookup u = none) :
    get_display_name fetch token cookie u s
      = (fetch (some token) (some cookie) u,
         { gToken := some token, gCookie := some cookie,
           cache := (u, fetch (some token) (some cookie) u) :: s.cache,
           calls := s.calls ++ [(some token, some cookie, u)] }) := by
  unfold get_display_name get_display_name_with_cache
  simp [hc]

/-- Helper: appending one logged call adds one to the count for its user
id and nothing to any other. -/
theorem callsFor_calls_append (v : List Char)
    (x : Option (List Char) × Option (List Char) × List Char)
    (s : GState) :
    callsFor v { s with calls := s.calls ++ [x] }
      = callsFor v s + (if x.2.2 = v then 1 else 0) := by
  unfold callsFor
  by_cases hx : x.2.2 = v <;> simp [List.filter_append, List.filter, hx]

/-- Helper: an association-list lookup skips an entry with a different key. -/
theorem lookup_cons_ne (v u n : List Char) (rest : List (List Char × List Char))
    (hvu : v ≠ u) : ((u, n) :: rest).lookup v = rest.lookup v := by
  have : (v == u) = false := by simpa using hvu
  simp [List.lookup, this]

/-- Helper invariant: along a resolution run, the number of logged calls
for a user id is at most one once the id is cached and zero before. -/
theorem resolveAll_calls_le (fetch : DisplayFetch) (token cookie : List Char)
    (users : List (List Char)) (s : GState) (v : List Char)
    (h : callsFor v s ≤ (if (s.cache.lookup v).isSome then 1 else 0)) :
    callsFor v (resolveAll fetch token cookie users s).2 ≤
      (if ((resolveAll fetch token cookie users s).2.cache.lookup v).isSome
        then 1 else 0) := by
  induction users generalizing s with
  | nil => simpa [resolveAll] using h
  | cons u us ih =>
    simp only [resolveAll]
    apply ih
    cases hc : s.cache.lookup u with
    | some n =>
      rw [gdn_hit fetch token cookie u s n hc]
      simpa [callsFor] using h
    | none =>
      rw [gdn_miss fetch token cookie u s hc]
      dsimp only
      have hstep := callsFor_calls_append v (some token, some cookie, u)
        { s with gToken := some token, gCookie := some cookie,
                 cache := (u, fetch (some token) (some cookie) u) :: s.cache }
      simp only at hstep
      by_cases hv : v = u
      · subst hv
        have h0 : callsFor v s = 0 := by
          rw [hc] at h
          simpa using h
        have hl : (((v, fetch (some token) (some cookie) v) :: s.cache).lookup v).isSome = true := by
          simp [List.lookup]
        rw [hstep]
        simp only [hl, if_true]
        have hcc : callsFor v
            { gToken := some token, gCookie := some cookie,
              cache := (v, fetch (some token) (some cookie) v) :: s.cache,
              calls := s.calls } = callsFor v s := rfl
        omega
      · rw [hstep]
        rw [lookup_cons_ne v u _ _ hv]
        have hcc : callsFor v
            { gToken := some token, gCookie := some cookie,
              cache := (u, fetch (some token) (some cookie) u) :: s.cache,
              calls := s.calls } = callsFor v s := rfl
        have hne : (if u = v then 1 else 0) = 0 := by
          simp [Ne.symm hv]
        omega

/-- Helper invariant: when every cached entry agrees with the fetch
function under the operation's credentials, the resolved names are exactly
the fetches and the property is preserved. -/
theorem resolveAll_results_eq (fetch : DisplayFetch) (token cookie : List Char)
    (users : List (List Char)) (s : GState)
    (h : ∀ v n, s.cache.lookup v = some n → n = fetch (some token) (some cookie) v) :
    (resolveAll fetch token cookie users s).1
      = users.map (fun v => fetch (some token) (some cookie) v)
    ∧ ∀ v n, (resolveAll fetch token cookie users s).2.cache.lookup v = some n →
        n = fetch (some token) (some cookie) v := by
  induction users generalizing s with
  | nil => exact ⟨rfl, h⟩
  | cons u us ih =>
    simp only [resolveAll, List.map]
    cases hc : s.cache.lookup u with
    | some n =>
      rw [gdn_hit fetch token cookie u s n hc]
      dsimp only
      have hn : n = fetch (some token) (some cookie) u := h u n hc
      have hrec := ih { s with gToken := some token, gCookie := some cookie } h
      exact ⟨by rw [hn, hrec.1], hrec.2⟩
    | none =>
      rw [gdn_miss fetch token cookie u s hc]
      dsimp only
      have h2 : ∀ v n, (((u, fetch (some token) (some cookie) u) :: s.cache).lookup v)
          = some n → n = fetch (some token) (some cookie) v := by
        intro v n hl
        by_cases hv : v = u
        · subst hv
          have : (v == v) = true := by simp
          simp [List.lookup, this] at hl
          exact hl.symm
        · rw [lookup_cons_ne v u _ _ hv] at hl
          exact h v n hl
      have hrec := ih ⟨some token, some cookie,
          (u, fetch (some token) (some cookie) u) :: s.cache,
          s.calls ++ [(some token, some cookie, u)]⟩ h2
      exact ⟨by rw [hrec.1], hrec.2⟩

/-- Claim C6: within a single render operation (a fresh process state, one
(token, cookie) pair), the underlying fetch is made at most once per
distinct user id no matter how many messages reference it, and every
resolution of a user id yields the same string — the list of results is
pointwise the fetch of each id under that pair. -/
theorem claim_C6 (fetch : DisplayFetch) (token cookie : List Char)
    (users : List (List Char)) (u : List Char) :
    callsFor u (resolveAll fetch token cookie users initGState).2 ≤ 1
    ∧ (resolveAll fetch token cookie users initGState).1
        = users.map (fun v => fetch (some token) (some cookie) v) := by
  constructor
  · have h := resolveAll_calls_le fetch token cookie users initGState u
      (by simp [callsFor, initGState, List.lookup])
    have : (if ((resolveAll fetch token cookie users initGState).2.cache.lookup u).isSome
        then 1 else 0) ≤ 1 := by
      split <;> omega
    omega
  · exact (resolveAll_results_eq fetch token cookie users initGState
      (by intro v n hl; simp [initGState, List.lookup] at hl)).1

/-- Helper: a replace pass whose pattern does not occur leaves its input
unchanged. -/
theorem pyReplace_of_not_occurs (pat rep t : List Char)
    (h : occursIn pat t = false) : pyReplace pat rep t = t := by
  induction t with
  | nil => simp [pyReplace]
  | cons c cs ih =>
    simp only [occursIn, Bool.or_eq_false_iff] at h
    rw [pyReplace]
    rw [if_neg]
    · rw [ih h.2]
    · rintro ⟨-, hpre⟩
      rw [h.1] at hpre
      exact absurd hpre (by simp)

/-- Helper: the bold pass copies a prefix free of backquotes and asterisks. -/
theorem boldSub_append (a b : List Char)
    (h : ∀ c ∈ a, c ≠ btick ∧ c ≠ '*') :
    boldSub (a ++ b) = a ++ boldSub b := by
  induction a with
  | nil => rfl
  | cons c a' ih =>
    have hc := h c (by simp)
    rw [List.cons_append, boldSub]
    rw [if_neg hc.1, if_neg hc.2]
    rw [ih (fun x hx => h x (by simp [hx]))]
    rfl

/-- Helper: the channel pass copies a prefix free of angle-bracket openers. -/
theorem channelSub_append (a b : List Char) (h : ∀ c ∈ a, c ≠ '<') :
    channelSub (a ++ b) = a ++ channelSub b := by
  induction a with
  | nil => rfl
  | cons c a' ih =>
    have hc := h c (by simp)
    rw [List.cons_append]
    cases hab : a' ++ b with
    | nil =>
      have ha' : a' = [] := by
        cases a' <;> simp_all
      have hb : b = [] := by
        cases b <;> simp_all
      subst ha'; subst hb
      simp [channelSub]
    | cons d rest =>
      rw [channelSub]
      rw [if_neg (by rintro ⟨h1, -⟩; exact hc h1)]
      rw [← hab, ih (fun x hx => h x (by simp [hx]))]
      simp

/-- Helper: the link pass copies a prefix free of angle-bracket openers. -/
theorem urlSub_append (a b : List Char) (h : ∀ c ∈ a, c ≠ '<') :
    urlSub (a ++ b) = a ++ urlSub b := by
  induction a with
  | nil => rfl
  | cons c a' ih =>
    have hc := h c (by simp)
    rw [List.cons_append, urlSub, if_neg hc]
    rw [ih (fun x hx => h x (by simp [hx]))]
    simp

/-- Helper: the mention pass copies a prefix free of angle-bracket openers,
acting on the remainder with the same state. -/
theorem mentionSub_append (fetch : DisplayFetch) (a b : List Char) (s : GState)
    (h : ∀ c ∈ a, c ≠ '<') :
    mentionSub fetch (a ++ b) s
      = (fun p : List Char × GState => (a ++ p.1, p.2)) <$> mentionSub fetch b s := by
  induction a generalizing s with
  | nil =>
    cases hm : mentionSub fetch b s <;> simp [hm]
  | cons c a' ih =>
    have hc := h c (by simp)
    rw [List.cons_append]
    cases hab : a' ++ b with
    | nil =>
      have ha' : a' = [] := by
        cases a' <;> simp_all
      have hb : b = [] := by
        cases b <;> simp_all
      subst ha'; subst hb
      simp [mentionSub]
    | cons d rest =>
      rw [mentionSub]
      rw [if_neg (by rintro ⟨h1, -⟩; exact hc h1)]
      rw [← hab, ih s (fun x hx => h x (by simp [hx]))]
      cases hm : mentionSub fetch b s <;> simp [hm]

/-- Helper: a pattern whose first character is absent from a string does
not occur in it. -/
theorem occursIn_false_of_head (p : Char) (ps t : List Char) (h : p ∉ t) :
    occursIn (p :: ps) t = false := by
  induction t with
  | nil => simp [occursIn, List.isEmpty]
  | cons c cs ih =>
    have hpc : ¬ (p == c) = true := by
      simp only [beq_iff_eq]
      intro he
      exact h (by simp [he])
    simp only [occursIn, List.isPrefixOf, Bool.or_eq_false_iff]
    constructor
    · simp [Bool.and_eq_false_iff]
      intro hx
      exact absurd (by simpa using hx) hpc
    · exact ih (fun hx => h (by simp [hx]))

/-- Claim C7 (amended): `convert` is the identity — hence idempotent — on
text containing none of the markup trigger characters (backquote, asterisk,
angle-bracket opener, ampersand; emojize given as identity on such text),
and the entity-unescaping pass is idempotent exactly on strings whose
single unescape leaves no residual entity sequence; in general a second
application can differ (see the counterexample). -/
theorem claim_C7 :
    (∀ (emojize : List Char → List Char) (fetch : DisplayFetch) (s : GState)
        (text : List Char), emojize text = text →
        (∀ c ∈ text, c ≠ btick ∧ c ≠ '*' ∧ c ≠ '<' ∧ c ≠ '&') →
        slack_text_to_markdown emojize fetch text s = .ok (text, s))
    ∧ (∀ t : List Char,
        occursIn "&amp;".data (unescapeEntities t) = false →
        occursIn "&lt;".data (unescapeEntities t) = false →
        occursIn "&gt;".data (unescapeEntities t) = false →
        unescapeEntities (unescapeEntities t) = unescapeEntities t) := by
  constructor
  · intro emojize fetch s text hemo hch
    have hb : boldSub text = text := by
      simpa [boldSub] using boldSub_append text []
        (fun c hc => ⟨(hch c hc).1, (hch c hc).2.1⟩)
    have hchan : channelSub text = text := by
      simpa [channelSub] using channelSub_append text [] (fun c hc => (hch c hc).2.2.1)
    have hment : mentionSub fetch text s = .ok (text, s) := by
      have := mentionSub_append fetch text [] s (fun c hc => (hch c hc).2.2.1)
      simpa [mentionSub] using this
    have hurl : urlSub text = text := by
      simpa [urlSub] using urlSub_append text [] (fun c hc => (hch c hc).2.2.1)
    have hun : unescapeEntities text = text := by
      have hno : '&' ∉ text := fun hx => (hch '&' hx).2.2.2 rfl
      unfold unescapeEntities
      rw [pyReplace_of_not_occurs _ _ _ (occursIn_false_of_head '&' _ _ hno),
        pyReplace_of_not_occurs _ _ _ (occursIn_false_of_head '&' _ _ hno),
        pyReplace_of_not_occurs _ _ _ (occursIn_false_of_head '&' _ _ hno)]
    unfold slack_text_to_markdown
    rw [hb, hchan, hment]
    dsimp only
    rw [hurl, hemo, hun]
  · intro t h1 h2 h3
    generalize hu : unescapeEntities t = u at h1 h2 h3 ⊢
    unfold unescapeEntities
    rw [pyReplace_of_not_occurs _ _ _ h1]
    rw [pyReplace_of_not_occurs _ _ _ h2]
    rw [pyReplace_of_not_occurs _ _ _ h3]

/-- Witness for C7: concrete plain prose passes through `convert`
unchanged, and unescaping a string with no residual entities is idempotent. -/
theorem claim_C7_witness :
    slack_text_to_markdown id (fun _ _ u => u) "hello world".data initGState
      = .ok ("hello world".data, initGState)
    ∧ unescapeEntities (unescapeEntities "a b".data) = unescapeEntities "a b".data := by
  constructor
  · exact claim_C7.1 id (fun _ _ u => u) initGState "hello world".data rfl (by decide)
  · have he : unescapeEntities "a b".data = "a b".data := by
      simp [unescapeEntities, pyReplace]
    exact claim_C7.2 "a b".data (by rw [he]; decide) (by rw [he]; decide)
      (by rw [he]; decide)

/-- Claim C7 counterexample: entity unescaping is NOT idempotent on every
string: one pass sends the string ampersand-a-m-p-semicolon-a-m-p-semicolon
to the single entity, a second pass to a bare ampersand. -/
theorem claim_C7_counterexample :
    unescapeEntities "&amp;amp;".data = "&amp;".data
    ∧ unescapeEntities "&amp;".data = "&".data
    ∧ unescapeEntities (unescapeEntities "&amp;amp;".data)
        ≠ unescapeEntities "&amp;amp;".data := by
  have h1 : unescapeEntities "&amp;amp;".data = "&amp;".data := by
    simp [unescapeEntities, pyReplace]
  have h2 : unescapeEntities "&amp;".data = "&".data := by
    simp [unescapeEntities, pyReplace]
  refine ⟨h1, h2, ?_⟩
  rw [h1, h2]
  decide

/-- Helper: `get_display_name` always leaves the globals set to the
credentials it was passed. -/
theorem gdn_globals (fetch : DisplayFetch) (token cookie u : List Char) (s : GState) :
    (get_display_name fetch token cookie u s).2.gToken = some token
    ∧ (get_display_name fetch token cookie u s).2.gCookie = some cookie := by
  cases hc : s.cache.lookup u with
  | some n => rw [gdn_hit fetch token cookie u s n hc]; exact ⟨rfl, rfl⟩
  | none => rw [gdn_miss fetch token cookie u s hc]; exact ⟨rfl, rfl⟩

/-- Helper equation: at a mention token with a closing angle bracket on
the line and both globals set, the mention pass resolves the lazy group
and recurses past the token. -/
theorem mentionSub_match_eq (fetch : DisplayFetch) (d : List Char) (cs : GState)
    (t ck : List Char)
    (hgt : '>' ∈ d.takeWhile (fun x => x ≠ '\n'))
    (h1 : cs.gToken = some t) (h2 : cs.gCookie = some ck) :
    mentionSub fetch ('<' :: '@' :: d) cs
      = (fun p : List Char × GState =>
          ('[' :: '@' ::
              (get_display_name fetch t ck (d.takeWhile (fun x => x ≠ '>')) cs).1
            ++ ']' :: p.1, p.2)) <$>
        mentionSub fetch ((d.dropWhile (fun x => x ≠ '>')).drop 1)
          (get_display_name fetch t ck (d.takeWhile (fun x => x ≠ '>')) cs).2 := by
  rw [mentionSub]
  rw [if_pos ⟨rfl, rfl⟩, if_pos hgt, h1, h2]

/-- Helper equation: at a mention token with a closing angle bracket on
the line and a still-unset global, the mention pass raises the source's
RuntimeError. -/
theorem mentionSub_match_err (fetch : DisplayFetch) (d : List Char) (cs : GState)
    (hgt : '>' ∈ d.takeWhile (fun x => x ≠ '\n'))
    (hnone : cs.gToken = none ∨ cs.gCookie = none) :
    mentionSub fetch ('<' :: '@' :: d) cs
      = .error "get_display_name() called out of order. This is a bug.".data := by
  rw [mentionSub]
  rw [if_pos ⟨rfl, rfl⟩, if_pos hgt]
  rcases hnone with h | h
  · rw [h]
  · rw [h]
    cases cs.gToken <;> rfl

/-- Helper: once both globals are set, the mention pass can no longer
raise — resolution itself re-sets the globals, so the error branch is
unreachable from such a state. -/
theorem mentionSub_ok_of_set (fetch : DisplayFetch) (text : List Char) (s : GState)
    (h1 : s.gToken.isSome) (h2 : s.gCookie.isSome) :
    ∃ out, mentionSub fetch text s = .ok out := by
  induction text, s using mentionSub.induct fetch with
  | case1 st => exact ⟨([], st), by simp [mentionSub]⟩
  | case2 ch st => exact ⟨([ch], st), by simp [mentionSub]⟩
  | case3 c d cs st hcd hgt t ck hck htok huid hr ih =>
    obtain ⟨rfl, rfl⟩ := hcd
    have hg := gdn_globals fetch t ck (cs.takeWhile (fun x => x ≠ '>')) st
    obtain ⟨out, hout⟩ := ih (by rw [hg.1]; rfl) (by rw [hg.2]; rfl)
    exact ⟨('[' :: '@' ::
        (get_display_name fetch t ck (cs.takeWhile (fun x => x ≠ '>')) st).1
        ++ ']' :: out.1, out.2),
      by rw [mentionSub_match_eq fetch cs st t ck hgt htok hck, hout]; rfl⟩
  | case4 c d cs st hcd hgt hnone =>
    obtain ⟨t, ht⟩ := Option.isSome_iff_exists.mp h1
    obtain ⟨ck, hck⟩ := Option.isSome_iff_exists.mp h2
    exact (hnone t ck ht hck).elim
  | case5 c d cs st hcd hgt ih =>
    obtain ⟨out, hout⟩ := ih h1 h2
    exact ⟨(c :: out.1, out.2),
      by rw [mentionSub, if_pos hcd, if_neg hgt, hout]; rfl⟩
  | case6 c d cs st hcd ih =>
    obtain ⟨out, hout⟩ := ih h1 h2
    exact ⟨(c :: out.1, out.2),
      by rw [mentionSub, if_neg hcd, hout]; rfl⟩

/-- Helper: takeWhile passes over a prefix all of whose characters satisfy
the predicate. -/
theorem takeWhile_append_all (p : Char → Bool) (a b : List Char)
    (h : ∀ c ∈ a, p c = true) :
    (a ++ b).takeWhile p = a ++ b.takeWhile p := by
  induction a with
  | nil => rfl
  | cons c a' ih =>
    have hpc := h c (by simp)
    simp only [List.cons_append, List.takeWhile, List.append_eq, hpc]
    exact congrArg (fun l => c :: l) (ih (fun x hx => h x (by simp [hx])))

/-- Helper: the channel pass steps over an angle bracket not followed by a
hash character. -/
theorem channelSub_lt_at (x : Char) (z : List Char) (hx : x ≠ '#') :
    channelSub ('<' :: x :: z) = '<' :: channelSub (x :: z) := by
  rw [channelSub]
  rw [if_neg (by rintro ⟨-, h⟩; exact hx h)]

/-- Helper (first half of claim C9): a mention token preceded only by text
free of angle-bracket openers, code-span and bold characters survives the
bold and channel passes, so with an unset global the converter raises the
source's RuntimeError. -/
theorem claim_C9_part1 (emojize : List Char → List Char) (fetch : DisplayFetch)
    (pre uid post : List Char) (s : GState)
    (hpre : ∀ c ∈ pre, c ≠ '<' ∧ c ≠ btick ∧ c ≠ '*')
    (huid : ∀ c ∈ uid, c ≠ '>' ∧ c ≠ '<' ∧ c ≠ '\n' ∧ c ≠ btick ∧ c ≠ '*')
    (hnone : s.gToken = none ∨ s.gCookie = none) :
    slack_text_to_markdown emojize fetch
      (pre ++ '<' :: '@' :: (uid ++ '>' :: post)) s
      = .error "get_display_name() called out of order. This is a bug.".data := by
  have hplain : ∀ c ∈ pre ++ '<' :: '@' :: (uid ++ ['>']), c ≠ btick ∧ c ≠ '*' := by
    intro c hcm
    simp only [List.mem_append, List.mem_cons, List.not_mem_nil, or_false] at hcm
    rcases hcm with hc | hc | hc | hc | hc
    · exact ⟨(hpre c hc).2.1, (hpre c hc).2.2⟩
    · subst hc; exact ⟨by decide, by decide⟩
    · subst hc; exact ⟨by decide, by decide⟩
    · exact ⟨(huid c hc).2.2.2.1, (huid c hc).2.2.2.2⟩
    · subst hc; exact ⟨by decide, by decide⟩
  have hbold : boldSub (pre ++ '<' :: '@' :: (uid ++ '>' :: post))
      = pre ++ '<' :: '@' :: (uid ++ '>' :: boldSub post) := by
    have h0 := boldSub_append (pre ++ '<' :: '@' :: (uid ++ ['>'])) post hplain
    simpa [List.append_assoc, List.cons_append, List.singleton_append] using h0
  have hchan : ∀ Y : List Char, channelSub (pre ++ '<' :: '@' :: (uid ++ '>' :: Y))
      = pre ++ '<' :: '@' :: (uid ++ '>' :: channelSub Y) := by
    intro Y
    rw [channelSub_append pre _ (fun c hc => (hpre c hc).1)]
    congr 1
    rw [channelSub_lt_at '@' _ (by decide)]
    congr 1
    have h1 := channelSub_append ('@' :: (uid ++ ['>'])) Y
      (by
        intro c hc
        simp only [List.mem_cons, List.mem_append, List.not_mem_nil, or_false] at hc
        rcases hc with hc | hc | hc
        · subst hc; decide
        · exact (huid c hc).2.1
        · subst hc; decide)
    simpa [List.append_assoc, List.cons_append, List.singleton_append] using h1
  have hgtmem : ∀ Z : List Char,
      '>' ∈ (uid ++ '>' :: Z).takeWhile (fun x => x ≠ '\n') := by
    intro Z
    rw [takeWhile_append_all _ uid _ (fun c hc => by simp [(huid c hc).2.2.1])]
    simp [List.takeWhile]
  have hment : ∀ Z : List Char, mentionSub fetch (pre ++ '<' :: '@' :: (uid ++ '>' :: Z)) s
      = .error "get_display_name() called out of order. This is a bug.".data := by
    intro Z
    rw [mentionSub_append fetch pre _ s (fun c hc => (hpre c hc).1)]
    rw [mentionSub_match_err fetch (uid ++ '>' :: Z) s (hgtmem Z) hnone]
    rfl
  unfold slack_text_to_markdown
  rw [hbold, hchan (boldSub post), hment (channelSub (boldSub post))]

/-- Claim C9 (amended): `slack_text_to_markdown` raises the out-of-order
RuntimeError for a text containing a mention token PROVIDED the token
survives to the mention pass (here: the preceding text is free of
angle-bracket openers, code-span and bold characters, and the user id is
free of closers, openers and newlines) and a global is still unset; and
once a display name was fetched earlier (both globals set), the error
branch is unreachable for every text.  The unqualified claim is false: an
earlier channel-reference rewrite can absorb the mention token (see the
counterexample). -/
theorem claim_C9 :
    (∀ (emojize : List Char → List Char) (fetch : DisplayFetch)
        (pre uid post : List Char) (s : GState),
        (∀ c ∈ pre, c ≠ '<' ∧ c ≠ btick ∧ c ≠ '*') →
        (∀ c ∈ uid, c ≠ '>' ∧ c ≠ '<' ∧ c ≠ '\n' ∧ c ≠ btick ∧ c ≠ '*') →
        s.gToken = none ∨ s.gCookie = none →
        slack_text_to_markdown emojize fetch
          (pre ++ '<' :: '@' :: (uid ++ '>' :: post)) s
          = .error "get_display_name() called out of order. This is a bug.".data)
    ∧ (∀ (emojize : List Char → List Char) (fetch : DisplayFetch)
        (text : List Char) (s : GState),
        s.gToken.isSome → s.gCookie.isSome →
        ∃ out, slack_text_to_markdown emojize fetch text s = .ok out) := by
  constructor
  · exact claim_C9_part1
  · intro emojize fetch text s h1 h2
    obtain ⟨⟨r, s'⟩, hout⟩ :=
      mentionSub_ok_of_set fetch (channelSub (boldSub text)) s h1 h2
    exact ⟨(unescapeEntities (emojize (urlSub r)), s'),
      by unfold slack_text_to_markdown; rw [hout]⟩

/-- Witness for C9: a concrete mention with unset globals raises, and the
same mention with both globals set converts successfully. -/
theorem claim_C9_witness :
    slack_text_to_markdown id (fun _ _ _ => "N".data)
      ("x ".data ++ '<' :: '@' :: ("U1".data ++ '>' :: [])) initGState
      = .error "get_display_name() called out of order. This is a bug.".data
    ∧ (∃ out, slack_text_to_markdown id (fun _ _ _ => "N".data) "<@U1>".data
        { initGState with gToken := some "t".data, gCookie := some "ck".data }
        = .ok out) := by
  constructor
  · exact claim_C9.1 id (fun _ _ _ => "N".data) "x ".data "U1".data [] initGState
      (by decide) (by decide) (Or.inl rfl)
  · exact claim_C9.2 id (fun _ _ _ => "N".data) "<@U1>".data
      { initGState with gToken := some "t".data, gCookie := some "ck".data }
      rfl rfl

/-- Claim C9 counterexample: the text `<#a<@u>` contains the mention token
`<@u>`, the globals are unset, yet no RuntimeError is raised — the channel
pass consumes the whole run into `[#a<@u]`, after which no mention token
remains. -/
theorem claim_C9_counterexample :
    ("<#a<@u>".data = "<#a".data ++ "<@u>".data ++ ([] : List Char))
    ∧ initGState.gToken = none
    ∧ slack_text_to_markdown id (fun _ _ _ => []) "<#a<@u>".data initGState
      = .ok ("[#a<@u]".data, initGState) := by
  refine ⟨by decide, rfl, ?_⟩
  simp [slack_text_to_markdown, boldSub, channelSub, mentionSub, urlSub,
    unescapeEntities, pyReplace, btick, List.takeWhile, List.dropWhile]

/-- Helper: once the argument is consumed, a percent-free format tail is
emitted verbatim. -/
theorem pyFormatAux_plain (arg rest : List Char) (h : ∀ c ∈ rest, c ≠ '%') :
    pyFormatAux arg rest true = some rest := by
  induction rest with
  | nil => simp [pyFormatAux]
  | cons c rest' ih =>
    rw [pyFormatAux.eq_def]
    dsimp only
    rw [if_neg (h c (by simp))]
    rw [ih (fun x hx => h x (by simp [hx]))]
    rfl

/-- Helper: a format string with exactly one string conversion between
percent-free parts substitutes the argument in place. -/
theorem pyFormat_one_sub (arg pre post : List Char)
    (hpre : ∀ c ∈ pre, c ≠ '%') (hpost : ∀ c ∈ post, c ≠ '%') :
    pyFormat (pre ++ '%' :: 's' :: post) arg = some (pre ++ arg ++ post) := by
  unfold pyFormat
  induction pre with
  | nil =>
    rw [List.nil_append]
    simp [pyFormatAux, pyFormatAux_plain arg post hpost]
  | cons c pre' ih =>
    rw [List.cons_append]
    rw [pyFormatAux.eq_def]
    dsimp only
    rw [if_neg (hpre c (by simp))]
    rw [ih (fun x hx => hpre x (by simp [hx]))]
    rfl

/-- Helper: splitting a separator-free string yields that one piece. -/
theorem pySplit_no_sep (sep : Char) (a : List Char) (h : ∀ c ∈ a, c ≠ sep) :
    pySplit sep a = [a] := by
  induction a with
  | nil => rfl
  | cons c a' ih =>
    rw [pySplit]
    rw [if_neg (h c (by simp))]
    rw [ih (fun x hx => h x (by simp [hx]))]

/-- Helper: splitting peels off a separator-free piece before a separator. -/
theorem pySplit_append (sep : Char) (a b : List Char) (h : ∀ c ∈ a, c ≠ sep) :
    pySplit sep (a ++ sep :: b) = a :: pySplit sep b := by
  induction a with
  | nil =>
    rw [List.nil_append, pySplit]
    rw [if_pos rfl]
  | cons c a' ih =>
    rw [List.cons_append, pySplit]
    rw [if_neg (h c (by simp))]
    rw [ih (fun x hx => h x (by simp [hx]))]

/-- Helper: with a percent-free embedded link the error formatting
succeeds and produces the fully substituted ValueError message. -/
theorem mkParseErr_eq (lwp reason : List Char) (hl : ∀ c ∈ lwp, c ≠ '%') :
    mkParseErr lwp reason
      = .err ("Unexpected link format: ".data ++ reason ++ (" Got: \"".data
          ++ lwp ++ "\"".data)) := by
  unfold mkParseErr
  have hshape : "Unexpected link format: %s Got: \"".data ++ lwp ++ "\"".data
      = "Unexpected link format: ".data ++ '%' :: 's' ::
        (" Got: \"".data ++ lwp ++ "\"".data) := by
    have h0 : "Unexpected link format: %s Got: \"".data
        = "Unexpected link format: ".data ++ '%' :: 's' :: " Got: \"".data := by
      decide
    rw [h0]
    simp [List.append_assoc]
  rw [hshape]
  rw [pyFormat_one_sub reason "Unexpected link format: ".data
    (" Got: \"".data ++ lwp ++ "\"".data) (by decide)
    (by
      intro c hcm
      simp only [List.mem_append] at hcm
      rcases hcm with (hc | hc) | hc
      · fin_cases hc <;> decide
      · exact hl c hc
      · fin_cases hc <;> decide)]

/-- Helper: dropWhile passes over a prefix all of whose characters satisfy
the predicate. -/
theorem dropWhile_append_all (p : Char → Bool) (a b : List Char)
    (h : ∀ c ∈ a, p c = true) :
    (a ++ b).dropWhile p = b.dropWhile p := by
  induction a with
  | nil => rfl
  | cons c a' ih =>
    simp only [List.cons_append, List.dropWhile, h c (by simp)]
    exact ih (fun x hx => h x (by simp [hx]))

/-- Helper: the first colon of a colon-free prefix followed by a colon is
found at the prefix's length (plus the running offset). -/
theorem findIdxColonAux (a b : List Char) (i : Nat) (h : ∀ c ∈ a, c ≠ ':') :
    List.findIdx? (fun c => c = ':') (a ++ ':' :: b) i = some (a.length + i) := by
  induction a generalizing i with
  | nil => simp [List.findIdx?]
  | cons c a' ih =>
    rw [List.cons_append, List.findIdx?]
    rw [if_neg (by simpa using h c (by simp))]
    rw [ih (i + 1) (fun x hx => h x (by simp [hx]))]
    simp only [List.length_cons]
    congr 1
    omega

/-- Helper: facts about lowercase ASCII letters used by the scheme
hypotheses of the permalink claims. -/
theorem lowerAlpha_facts (c : Char) (h : c ∈ "abcdefghijklmnopqrstuvwxyz".data) :
    c.isAlpha = true ∧ schemeChar c = true ∧ c.toLower = c ∧ c ≠ ':'
    ∧ ¬ (c ≤ ' ') ∧ c ≠ '\t' ∧ c ≠ '\r' ∧ c ≠ '\n' ∧ c ≠ '/' ∧ c ≠ '%'
    ∧ c ≠ '?' ∧ c ≠ '#' := by
  fin_cases h <;> exact (by decide)

/-- Helper: an ASCII digit is none of the characters that delimit or strip
a permalink. -/
theorem digit_facts (c : Char) (h : c.isDigit = true) :
    c ≠ '\t' ∧ c ≠ '\r' ∧ c ≠ '\n' ∧ c ≠ '/' ∧ c ≠ '?' ∧ c ≠ '#'
    ∧ c ≠ '%' ∧ c ≠ 'p' := by
  refine ⟨?_, ?_, ?_, ?_, ?_, ?_, ?_, ?_⟩ <;>
    · intro he
      subst he
      exact absurd h (by decide)

/-- Helper: the urlsplit scheme step recognises a non-empty lowercase
scheme before a colon and lower-cases it to itself. -/
theorem splitScheme_eq (sch rest : List Char) (hne : sch ≠ [])
    (h : ∀ c ∈ sch, c ∈ "abcdefghijklmnopqrstuvwxyz".data) :
    splitScheme (sch ++ ':' :: rest) = (sch, rest) := by
  unfold splitScheme
  rw [findIdxColonAux sch rest 0
    (fun c hc => (lowerAlpha_facts c (h c hc)).2.2.2.1)]
  simp only [Nat.add_zero]
  have htake : (sch ++ ':' :: rest).take sch.length = sch := List.take_left sch _
  have hdrop : (sch ++ ':' :: rest).drop (sch.length + 1) = rest := by
    have h1 : sch ++ ':' :: rest = (sch ++ [':']) ++ rest := by simp
    have h2 : sch.length + 1 = (sch ++ [':']).length := by simp
    rw [h1, h2, List.drop_left]
  have hhead : (sch ++ ':' :: rest).headD ' ' = sch.headD ' ' := by
    cases sch with
    | nil => exact absurd rfl hne
    | cons c0 s' => rfl
  have hha : ((sch ++ ':' :: rest).headD ' ').isAlpha = true := by
    rw [hhead]
    cases sch with
    | nil => exact absurd rfl hne
    | cons c0 s' => exact (lowerAlpha_facts c0 (h c0 (by simp))).1
  have hall : ((sch ++ ':' :: rest).take sch.length).all schemeChar = true := by
    rw [htake]
    rw [List.all_eq_true]
    exact fun c hc => (lowerAlpha_facts c (h c hc)).2.1
  rw [if_pos ⟨by simpa using List.length_pos.mpr hne, hha, hall⟩]
  rw [htake, hdrop]
  have hmap : sch.map Char.toLower = sch := by
    have := List.map_congr_left
      (fun c (hc : c ∈ sch) => (lowerAlpha_facts c (h c hc)).2.2.1)
    rw [this]
    exact List.map_id' sch
  rw [hmap]

/-- Helper: the urlsplit netloc step takes everything after the double
slash up to the next slash. -/
theorem splitNetloc_eq (host tail : List Char)
    (h : ∀ c ∈ host, c ≠ '/' ∧ c ≠ '?' ∧ c ≠ '#') :
    splitNetloc ('/' :: '/' :: (host ++ '/' :: tail)) = (host, '/' :: tail) := by
  unfold splitNetloc
  rw [if_pos (show List.take 2 ('/' :: '/' :: (host ++ '/' :: tail))
    = ['/', '/'] from rfl)]
  have hp : ∀ c ∈ host, (fun c => ¬ (c = '/' ∨ c = '?' ∨ c = '#') : Char → Bool) c
      = true := by
    intro c hc
    simpa using h c hc
  rw [List.drop_succ_cons, List.drop_succ_cons, List.drop_zero]
  rw [takeWhile_append_all _ host _ hp, dropWhile_append_all _ host _ hp]
  simp [List.takeWhile, List.dropWhile]

/-- Helper: takeWhile keeps a list all of whose characters satisfy the
predicate. -/
theorem takeWhile_all_eq (p : Char → Bool) (a : List Char)
    (h : ∀ c ∈ a, p c = true) : a.takeWhile p = a := by
  simpa using takeWhile_append_all p a [] h

/-- Claim C3: for every well-formed permalink scheme://host/archives/
channelId/p followed by sixteen digits — scheme a non-empty lowercase
ASCII word, host and channel id free of delimiter characters — parse
succeeds, returning the origin scheme://host/, the channel id verbatim,
and the timestamp re-punctuated as the first ten digits, a dot, then the
last six. -/
theorem claim_C3 (sch host chId ds : List Char)
    (hs1 : sch ≠ [])
    (hs2 : ∀ c ∈ sch, c ∈ "abcdefghijklmnopqrstuvwxyz".data)
    (hh : ∀ c ∈ host, hostChar c = true)
    (hc : ∀ c ∈ chId, pathChar c = true)
    (hd1 : ds.length = 16)
    (hd2 : ∀ c ∈ ds, c.isDigit = true) :
    parse_slack_message_link
      (sch ++ "://".data ++ host ++ "/archives/".data ++ chId ++ "/p".data ++ ds)
      = .ok (sch ++ "://".data ++ host ++ "/".data) chId
          (ds.take 10 ++ ".".data ++ ds.drop 10) := by
  have hHost : ∀ c ∈ host, ¬ (c = '/' ∨ c = '?' ∨ c = '#' ∨ c = '[' ∨ c = ']'
      ∨ c = '\t' ∨ c = '\r' ∨ c = '\n') := by
    intro c hcm
    have := hh c hcm
    simpa [hostChar] using this
  have hCh : ∀ c ∈ chId, ¬ (c = '/' ∨ c = '?' ∨ c = '#'
      ∨ c = '\t' ∨ c = '\r' ∨ c = '\n') := by
    intro c hcm
    have := hc c hcm
    simpa [pathChar] using this
  -- the link, re-bracketed so that the scheme/netloc/path splitters apply
  have hlink : sch ++ "://".data ++ host ++ "/archives/".data ++ chId
        ++ "/p".data ++ ds
      = sch ++ ':' :: ('/' :: '/' :: (host ++ '/' ::
          ("archives".data ++ '/' :: (chId ++ '/' :: ('p' :: ds))))) := by
    have e1 : "://".data = ':' :: '/' :: '/' :: ([] : List Char) := rfl
    have e2 : "/archives/".data
        = '/' :: ("archives".data ++ '/' :: ([] : List Char)) := rfl
    have e3 : "/p".data = '/' :: 'p' :: ([] : List Char) := rfl
    rw [e1, e2, e3]
    simp [List.append_assoc]
  rw [hlink]
  have hmem : ∀ c ∈ sch ++ ':' :: ('/' :: '/' :: (host ++ '/' ::
      ("archives".data ++ '/' :: (chId ++ '/' :: ('p' :: ds))))),
      ¬ (c = '\t' ∨ c = '\r' ∨ c = '\n') := by
    intro c hcm
    simp only [List.mem_append, List.mem_cons] at hcm
    simp only [not_or]
    rcases hcm with hS | rfl | rfl | rfl | hH | rfl | hA | rfl | hC | rfl | rfl | hD
    · have hf := lowerAlpha_facts c (hs2 c hS)
      exact ⟨hf.2.2.2.2.2.1, hf.2.2.2.2.2.2.1, hf.2.2.2.2.2.2.2.1⟩
    · exact ⟨by decide, by decide, by decide⟩
    · exact ⟨by decide, by decide, by decide⟩
    · exact ⟨by decide, by decide, by decide⟩
    · have hf := hHost c hH
      simp only [not_or] at hf
      exact ⟨hf.2.2.2.2.2.1, hf.2.2.2.2.2.2.1, hf.2.2.2.2.2.2.2⟩
    · exact ⟨by decide, by decide, by decide⟩
    · rcases hA with rfl | rfl | rfl | rfl | rfl | rfl | rfl | rfl | h0
      · exact ⟨by decide, by decide, by decide⟩
      · exact ⟨by decide, by decide, by decide⟩
      · exact ⟨by decide, by decide, by decide⟩
      · exact ⟨by decide, by decide, by decide⟩
      · exact ⟨by decide, by decide, by decide⟩
      · exact ⟨by decide, by decide, by decide⟩
      · exact ⟨by decide, by decide, by decide⟩
      · exact ⟨by decide, by decide, by decide⟩
      · exact absurd h0 (List.not_mem_nil c)
    · exact ⟨by decide, by decide, by decide⟩
    · have hf := hCh c hC
      simp only [not_or] at hf
      exact ⟨hf.2.2.2.1, hf.2.2.2.2.1, hf.2.2.2.2.2⟩
    · exact ⟨by decide, by decide, by decide⟩
    · exact ⟨by decide, by decide, by decide⟩
    · have hf := digit_facts c (hd2 c hD)
      exact ⟨hf.1, hf.2.1, hf.2.2.1⟩
  have hdw : (sch ++ ':' :: ('/' :: '/' :: (host ++ '/' ::
      ("archives".data ++ '/' :: (chId ++ '/' :: ('p' :: ds)))))).dropWhile
        (fun c => c ≤ ' ')
      = sch ++ ':' :: ('/' :: '/' :: (host ++ '/' ::
        ("archives".data ++ '/' :: (chId ++ '/' :: ('p' :: ds))))) := by
    cases sch with
    | nil => exact absurd rfl hs1
    | cons c0 sch' =>
      rw [List.cons_append, List.dropWhile]
      rw [show (decide (c0 ≤ ' ')) = false by
        simpa using (lowerAlpha_facts c0 (hs2 c0 (by simp))).2.2.2.2.1]
  have hfl : (sch ++ ':' :: ('/' :: '/' :: (host ++ '/' ::
      ("archives".data ++ '/' :: (chId ++ '/' :: ('p' :: ds)))))).filter
        (fun c => ¬ (c = '\t' ∨ c = '\r' ∨ c = '\n'))
      = sch ++ ':' :: ('/' :: '/' :: (host ++ '/' ::
        ("archives".data ++ '/' :: (chId ++ '/' :: ('p' :: ds))))) := by
    rw [List.filter_eq_self]
    intro c hcm
    simpa using hmem c hcm
  have hurl : urlparseModel (sch ++ ':' :: ('/' :: '/' :: (host ++ '/' ::
      ("archives".data ++ '/' :: (chId ++ '/' :: ('p' :: ds))))))
      = (sch, host, '/' :: ("archives".data ++ '/' ::
          (chId ++ '/' :: ('p' :: ds)))) := by
    unfold urlparseModel
    rw [hdw, hfl]
    simp only [splitScheme_eq sch ('/' :: '/' :: (host ++ '/' ::
      ("archives".data ++ '/' :: (chId ++ '/' :: ('p' :: ds))))) hs1 hs2]
    simp only [splitNetloc_eq host ("archives".data ++ '/' ::
        (chId ++ '/' :: ('p' :: ds)))
      (fun c hcm => by
        have hf := hHost c hcm
        simp only [not_or] at hf
        exact ⟨hf.1, hf.2.1, hf.2.2.1⟩)]
    have hmem2 : ∀ c ∈ '/' :: ("archives".data ++ '/' ::
        (chId ++ '/' :: ('p' :: ds))),
        (fun c => ¬ (c = '#' ∨ c = '?') : Char → Bool) c = true := by
      intro c hcm
      simp only [List.mem_cons, List.mem_append] at hcm
      simp only [decide_eq_true_eq, not_or]
      rcases hcm with rfl | hA | rfl | hC | rfl | rfl | hD
      · exact ⟨by decide, by decide⟩
      · rcases hA with rfl | rfl | rfl | rfl | rfl | rfl | rfl | rfl | h0
        · exact ⟨by decide, by decide⟩
        · exact ⟨by decide, by decide⟩
        · exact ⟨by decide, by decide⟩
        · exact ⟨by decide, by decide⟩
        · exact ⟨by decide, by decide⟩
        · exact ⟨by decide, by decide⟩
        · exact ⟨by decide, by decide⟩
        · exact ⟨by decide, by decide⟩
        · exact absurd h0 (List.not_mem_nil c)
      · exact ⟨by decide, by decide⟩
      · have hf := hCh c hC
        simp only [not_or] at hf
        exact ⟨hf.2.2.1, hf.2.1⟩
      · exact ⟨by decide, by decide⟩
      · exact ⟨by decide, by decide⟩
      · have hf := digit_facts c (hd2 c hD)
        exact ⟨hf.2.2.2.2.2.1, hf.2.2.2.2.1⟩
    rw [takeWhile_all_eq _ _ hmem2]
  have hsplit : pySplit '/' ("archives".data ++ '/' ::
      (chId ++ '/' :: ('p' :: ds)))
      = ["archives".data, chId, 'p' :: ds] := by
    rw [pySplit_append '/' "archives".data _ (by decide)]
    rw [pySplit_append '/' chId _ (fun c hcm => by
      have hf := hCh c hcm
      simp only [not_or] at hf
      exact hf.1)]
    rw [pySplit_no_sep '/' ('p' :: ds) (by
      intro c hcm
      rcases List.mem_cons.mp hcm with rfl | hD
      · decide
      · exact (digit_facts c (hd2 c hD)).2.2.2.1)]
  unfold parse_slack_message_link
  rw [hurl]
  simp only [List.drop_succ_cons, List.drop_zero, hsplit]
  rw [if_neg hs1]
  rw [if_neg (not_not_intro (rfl : "archives".data = "archives".data))]
  rw [if_neg (not_not_intro (rfl : ('p' : Char) = 'p'))]
  rw [if_neg (not_not_intro (⟨by
      intro h0
      rw [h0] at hd1
      simp at hd1, List.all_eq_true.mpr hd2⟩
    : ds ≠ [] ∧ ds.all Char.isDigit = true))]
  rw [if_neg (not_not_intro (by simp [hd1] : ('p' :: ds).length = 1 + 10 + 6))]
  rw [if_neg (not_not_intro (rfl : ([] : List (List Char)) = []))]
  have htk : (ds.drop 10).take 6 = ds.drop 10 :=
    List.take_of_length_le (by simp [hd1])
  rw [htk]
/-- Witness for C3 at the spec's own example shape. -/
theorem claim_C3_witness :
    parse_slack_message_link ("https".data ++ "://".data ++ "a.slack.com".data
      ++ "/archives/".data ++ "C1".data ++ "/p".data ++ "1234567890123456".data)
      = .ok ("https".data ++ "://".data ++ "a.slack.com".data ++ "/".data)
          "C1".data ("1234567890123456".data.take 10 ++ ".".data
            ++ "1234567890123456".data.drop 10) := by
  exact claim_C3 "https".data "a.slack.com".data "C1".data
    "1234567890123456".data (by decide) (by decide) (by decide) (by decide)
    (by decide) (by decide)

/-- Helper: an error message built from a percent-free embedded link and a
percent-free reason contains no percent character. -/
theorem mkParseErr_no_percent (lwp reason msg : List Char)
    (hl : ∀ c ∈ lwp, c ≠ '%') (hr : ∀ c ∈ reason, c ≠ '%')
    (he : mkParseErr lwp reason = .err msg) : '%' ∉ msg := by
  rw [mkParseErr_eq lwp reason hl] at he
  injection he with hmsg
  subst hmsg
  intro hm
  simp only [List.mem_append] at hm
  rcases hm with (hm | hm) | (hm | hm) | hm
  · revert hm; decide
  · exact hr '%' hm rfl
  · revert hm; decide
  · exact hl '%' hm rfl
  · revert hm; decide

/-- Claim C8 (amended): the parser removes only literal backslash-percent
pairs from the link it embeds in error messages; when the link after that
removal is percent-free, every ValueError message it raises is
percent-free.  Bare percent characters are NOT removed (see the
counterexample, where a percent survives into the message). -/
theorem claim_C8 (link msg : List Char)
    (h : '%' ∉ pyReplace "\\%".data [] link)
    (he : parse_slack_message_link link = .err msg) : '%' ∉ msg := by
  have hl : ∀ c ∈ pyReplace "\\%".data [] link, c ≠ '%' :=
    fun c hcm heq => h (heq ▸ hcm)
  simp only [parse_slack_message_link] at he
  split at he
  · split at he
    · exact mkParseErr_no_percent _ _ _ hl (by decide) he
    · split at he
      · exact mkParseErr_no_percent _ _ _ hl (by decide) he
      · split at he
        · exact absurd he (by simp)
        · split at he
          · exact mkParseErr_no_percent _ _ _ hl (by decide) he
          · split at he
            · exact mkParseErr_no_percent _ _ _ hl (by decide) he
            · split at he
              · exact mkParseErr_no_percent _ _ _ hl (by decide) he
              · split at he
                · exact mkParseErr_no_percent _ _ _ hl (by decide) he
                · exact absurd he (by simp)
  · exact mkParseErr_no_percent _ _ _ hl (by decide) he

/-- Claim C8 counterexample: the malformed link foo%%bar contains percent
characters not preceded by a backslash; the raised error message still
contains a percent character (the doubled percent survives the
backslash-percent removal and is collapsed by the printf-style
formatting), so not every percent of the input is absent from the message. -/
theorem claim_C8_counterexample :
    parse_slack_message_link "foo%%bar".data
      = .err "Unexpected link format: could not be parsed a URL. Got: \"foo%bar\"".data
    ∧ '%' ∈ "foo%%bar".data
    ∧ '%' ∈ "Unexpected link format: could not be parsed a URL. Got: \"foo%bar\"".data := by
  have hlwp : pyReplace "\\%".data [] "foo%%bar".data = "foo%%bar".data :=
    pyReplace_of_not_occurs _ _ _ (by decide)
  refine ⟨?_, by decide, by decide⟩
  simp only [parse_slack_message_link, hlwp]
  decide

/-- Witness for C8: a concrete malformed link without percents yields a
percent-free error message. -/
theorem claim_C8_witness :
    ('%' ∉ pyReplace "\\%".data [] "/x".data)
    ∧ '%' ∉ "Unexpected link format: could not be parsed a URL. Got: \"/x\"".data := by
  have hlwp : pyReplace "\\%".data [] "/x".data = "/x".data :=
    pyReplace_of_not_occurs _ _ _ (by decide)
  have hp : parse_slack_message_link "/x".data
      = .err "Unexpected link format: could not be parsed a URL. Got: \"/x\"".data := by
    simp only [parse_slack_message_link, hlwp]
    decide
  exact ⟨by rw [hlwp]; decide, claim_C8 "/x".data _ (by rw [hlwp]; decide) hp⟩
